import Mathlib

/-!
Shallow embedding of the survey ranking / final-submission / reconciliation core
of this repository (`services/ranking_service.py`, `database/db_handler.py`).

Python strings are modelled through their character lists (`String.data`):
`pyStrip`, `pyLower` and `pyLt` model `str.strip()`, `str.lower()` and the
lexicographic `str.__lt__`.  Python's `list.sort` / `sorted` are stable sorts;
they are modelled by `List.insertionSort`, which is stable for the same
comparison, hence computes the same (unique) stable-sorted result.
Python dicts with `.get` defaults are modelled by structures in which every
field is present, the default standing in for a missing key.
-/

/-- Python `str.strip()`: remove whitespace from both ends. -/
def pyStrip (s : String) : String :=
  ⟨((s.data.dropWhile Char.isWhitespace).reverse.dropWhile Char.isWhitespace).reverse⟩

/-- Python `str.lower()`: per-character lower-casing. -/
def pyLower (s : String) : String := ⟨s.data.map Char.toLower⟩

/-- Lexicographic code-point comparison of character lists (Python `str.__lt__`). -/
def charListLt : List Char → List Char → Bool
  | _, [] => false
  | [], _ :: _ => true
  | a :: as, b :: bs =>
    if a.toNat < b.toNat then true
    else if b.toNat < a.toNat then false
    else charListLt as bs

/-- Python `str.__lt__`. -/
def pyLt (a b : String) : Bool := charListLt a.data b.data

/-- An answer record: the fields of the Python answer dict used by the ranking and
final-submission code, with the `.get` defaults folded in. -/
structure Answer where
  answer : String
  isCorrect : Bool
  responseCount : Int
  rank : Int
  score : Int
deriving DecidableEq

/-- Descending `responseCount` comparison used by
`correct_answers.sort(key=lambda x: x.get('responseCount', 0), reverse=True)`
in `AnswerRanker._rank_correct_answers`. -/
def respRel (a b : Answer) : Prop := b.responseCount ≤ a.responseCount

instance : DecidableRel respRel := fun a b =>
  inferInstanceAs (Decidable (b.responseCount ≤ a.responseCount))

instance : IsTotal Answer respRel := ⟨fun a b => le_total b.responseCount a.responseCount⟩

instance : IsTrans Answer respRel := ⟨fun _ _ _ h1 h2 => le_trans h2 h1⟩

/-- The assignment loop of `AnswerRanker._rank_correct_answers`: the answer at
position `i` gets `rank = i + 1` and
`score = scoring_values[i] if i < len(scoring_values) else 0`. -/
def assignRankScore (scoring : List Int) : Nat → List Answer → List Answer
  | _, [] => []
  | i, a :: rest =>
    { a with rank := (i : Int) + 1, score := scoring.getD i 0 } ::
      assignRankScore scoring (i + 1) rest

/-- `AnswerRanker._rank_correct_answers`: sort correct answers by descending
`responseCount` (stable), assign ranks and table scores, and report how many
answers were ranked and how many got a positive score. -/
def rank_correct_answers (scoring : List Int) (correct : List Answer) :
    List Answer × Nat × Nat :=
  if correct.isEmpty then ([], 0, 0)
  else
    let ranked := assignRankScore scoring 0 (correct.insertionSort respRel)
    (ranked, ranked.length, ranked.countP (fun a => 0 < a.score))

/-- `AnswerRanker._reset_incorrect_answers`: force `rank = 0` and `score = 0`. -/
def reset_incorrect_answers (l : List Answer) : List Answer :=
  l.map fun a => { a with rank := 0, score := 0 }

/-- `AnswerRanker.rank_answers`: separate correct from incorrect answers, rank the
correct ones, zero the incorrect ones, and return correct-then-incorrect together
with the ranked/scored counts. -/
def rank_answers (scoring : List Int) (answers : List Answer) :
    List Answer × Nat × Nat :=
  if answers.isEmpty then (answers, 0, 0)
  else
    let correct := answers.filter (·.isCorrect)
    let incorrect := answers.filter (fun a => !a.isCorrect)
    let r := rank_correct_answers scoring correct
    (r.1 ++ reset_incorrect_answers incorrect, r.2.1, r.2.2)

/-- A question record (both a fetched question and a prepared final-question
record): the fields of the Python dict used by the final-submission code.
`id` models the remote `_id` and `existingId` the transient `_existing_id`
back-reference (absent = `none`). -/
structure Question where
  id : Option String
  question : String
  questionType : String
  questionCategory : String
  questionLevel : String
  timesSkipped : Int
  timesAnswered : Int
  answers : List Answer
  existingId : Option String
deriving DecidableEq

/-- The filter of `_prepare_input_question_for_final`:
`isCorrect is True and rank > 0 and score > 0`. -/
def qualifiesForInputFinal (a : Answer) : Bool :=
  a.isCorrect && decide (0 < a.rank) && decide (0 < a.score)

/-- Ascending-rank comparison used by
`correct_answers.sort(key=lambda x: x.get('rank', 999))`. -/
def rankRel (a b : Answer) : Prop := a.rank ≤ b.rank

instance : DecidableRel rankRel := fun a b => inferInstanceAs (Decidable (a.rank ≤ b.rank))

instance : IsTotal Answer rankRel := ⟨fun a b => le_total a.rank b.rank⟩

instance : IsTrans Answer rankRel := ⟨fun _ _ _ h1 h2 => le_trans h1 h2⟩

/-- The per-answer coercion of `_prepare_input_question_for_final`:
trimmed text, integer fields, `isCorrect` forced to `True`. -/
def formatInputFinalAnswer (a : Answer) : Answer :=
  { answer := pyStrip a.answer, responseCount := a.responseCount,
    isCorrect := true, rank := a.rank, score := a.score }

/-- The output-building loop of `_prepare_input_question_for_final`; `none` models
the early `return False, []` taken on an empty trimmed answer text. -/
def buildInputFinalAnswers : List Answer → Option (List Answer)
  | [] => some []
  | a :: rest =>
    let fa := formatInputFinalAnswer a
    if fa.answer = "" then none
    else (buildInputFinalAnswers rest).map (fa :: ·)

/-- `_prepare_input_question_for_final`: keep correct, ranked, scored answers;
require at least 3; emit the top 3 by ascending rank unless one of them has
empty trimmed text. -/
def prepare_input_question_for_final (all_answers : List Answer) :
    Bool × List Answer :=
  let correct := all_answers.filter qualifiesForInputFinal
  if correct.length < 3 then (false, [])
  else
    match buildInputFinalAnswers ((correct.insertionSort rankRel).take 3) with
    | none => (false, [])
    | some fas => (true, fas)

/-- The per-answer coercion of `_prepare_mcq_question_for_final`:
trimmed text, integer fields, original `isCorrect` preserved. -/
def formatMcqFinalAnswer (a : Answer) : Answer :=
  { answer := pyStrip a.answer, responseCount := a.responseCount,
    isCorrect := a.isCorrect, rank := a.rank, score := a.score }

/-- `_prepare_mcq_question_for_final`: exactly 4 answers, exactly 1 correct,
no empty trimmed text, pairwise-distinct normalized texts; on success all 4
coerced answers are emitted. -/
def prepare_mcq_question_for_final (all_answers : List Answer) :
    Bool × List Answer :=
  if all_answers.length ≠ 4 then (false, [])
  else if (all_answers.filter (·.isCorrect)).length ≠ 1 then (false, [])
  else if all_answers.any (fun a => pyStrip a.answer = "") then (false, [])
  else
    let texts := all_answers.map (fun a => pyLower (pyStrip a.answer))
    if texts.dedup.length ≠ texts.length then (false, [])
    else (true, all_answers.map formatMcqFinalAnswer)

/-- `_validate_and_prepare_answers_for_final`; its `question_type` argument is the
lower-cased type computed by the caller. -/
def validate_and_prepare_answers_for_final (question_type : String)
    (answers : List Answer) : Bool × List Answer :=
  if question_type = "input" then prepare_input_question_for_final answers
  else if question_type = "mcq" then prepare_mcq_question_for_final answers
  else (false, [])

/-- The final-record projection built in `_prepare_questions_for_final_submission`. -/
def makeFinalQuestion (q : Question) (fas : List Answer) : Question :=
  { id := none, question := q.question, questionType := q.questionType,
    questionCategory := q.questionCategory, questionLevel := q.questionLevel,
    timesSkipped := q.timesSkipped, timesAnswered := q.timesAnswered,
    answers := fas, existingId := none }

/-- `_prepare_questions_for_final_submission`: skip every question whose
lower-cased type is not `input`, skip questions without answers, and keep
a question only when its type-specific validation accepts it. -/
def prepare_questions_for_final_submission : List Question → List Question
  | [] => []
  | q :: rest =>
    let tail := prepare_questions_for_final_submission rest
    if pyLower q.questionType ≠ "input" then tail
    else if q.answers.isEmpty then tail
    else
      let r := validate_and_prepare_answers_for_final (pyLower q.questionType) q.answers
      if r.1 && !r.2.isEmpty then makeFinalQuestion q r.2 :: tail
      else tail

/-- `normalize_answer_for_comparison` inside `_answers_have_changed`:
trimmed lower-cased text, boolean flag, integer fields. -/
def normalizeAnswerForComparison (a : Answer) : Answer :=
  { answer := pyLower (pyStrip a.answer), isCorrect := a.isCorrect,
    rank := a.rank, score := a.score, responseCount := a.responseCount }

/-- The `(text, rank)` key order used by
`sorted(..., key=lambda x: (x['answer'], x['rank']))` in `_answers_have_changed`. -/
def cmpKeyRel (a b : Answer) : Prop :=
  pyLt a.answer b.answer = true ∨ (a.answer = b.answer ∧ a.rank ≤ b.rank)

instance : DecidableRel cmpKeyRel := fun a b =>
  inferInstanceAs (Decidable (pyLt a.answer b.answer = true ∨
    (a.answer = b.answer ∧ a.rank ≤ b.rank)))

/-- `_answers_have_changed`: unequal lengths change; otherwise compare the
normalized answer lists after a stable sort by the `(text, rank)` key. -/
def answers_have_changed (newQ existQ : Question) : Bool :=
  if newQ.answers.length ≠ existQ.answers.length then true
  else
    let nn := (newQ.answers.map normalizeAnswerForComparison).insertionSort cmpKeyRel
    let en := (existQ.answers.map normalizeAnswerForComparison).insertionSort cmpKeyRel
    decide (nn ≠ en)

/-- The normalized question-text key of `_categorize_questions_for_submission`:
`question.get('question', '').strip().lower()`. -/
def questionKey (q : Question) : String := pyLower (pyStrip q.question)

/-- One `existing_lookup[question_text] = existing` dict assignment: replace the
value when the key is present, append otherwise. -/
def insertLookup (d : List (String × Question)) (k : String) (v : Question) :
    List (String × Question) :=
  if d.any (fun p => p.1 = k) then d.map (fun p => if p.1 = k then (k, v) else p)
  else d ++ [(k, v)]

/-- One iteration of the lookup-building loop of
`_categorize_questions_for_submission`: keys with empty normalized text are
skipped. -/
def buildLookupStep (d : List (String × Question)) (e : Question) :
    List (String × Question) :=
  if questionKey e = "" then d else insertLookup d (questionKey e) e

/-- The lookup built by `_categorize_questions_for_submission`. -/
def buildLookup (existing : List Question) : List (String × Question) :=
  existing.foldl buildLookupStep []

/-- Dict lookup (`question_text in existing_lookup` / `existing_lookup[...]`). -/
def dictFind (d : List (String × Question)) (k : String) : Option Question :=
  (d.find? (fun p => p.1 = k)).map (·.2)

/-- The classification loop of `_categorize_questions_for_submission`. -/
def categorizeGo (lookup : List (String × Question)) :
    List Question → List Question × List Question × List Question
  | [] => ([], [], [])
  | q :: rest =>
    let r := categorizeGo lookup rest
    match dictFind lookup (questionKey q) with
    | none => (q :: r.1, r.2.1, r.2.2)
    | some ex =>
      if answers_have_changed q ex then
        (r.1, { q with existingId := ex.id } :: r.2.1, r.2.2)
      else (r.1, r.2.1, q :: r.2.2)

/-- `_categorize_questions_for_submission`: split the local final records into
(new, updated, unchanged). -/
def categorize_questions_for_submission (final_questions existing : List Question) :
    List Question × List Question × List Question :=
  categorizeGo (buildLookup existing) final_questions

/-- The outbound calls issued by `_handle_final_submission_with_updates`:
each element of `createCalls` is the payload of one POST to the final endpoint,
`updateCalls` lists the records given to `_update_single_final_question`
(one call per record), and `details` is the `new/updated/unchanged` breakdown
(absent when the existing collection could not be fetched). -/
structure SubmissionCalls where
  createCalls : List (List Question)
  updateCalls : List Question
  details : Option (Nat × Nat × Nat)
deriving DecidableEq

/-- The per-record loop of `_update_existing_final_questions`: records without a
truthy `_existing_id` are skipped (`if not question_id: continue`). -/
def update_existing_final_questions_calls (updated : List Question) : List Question :=
  updated.filter fun q =>
    match q.existingId with
    | none => false
    | some s => !(s = "")

/-- `_handle_final_submission_with_updates`, projected onto the outbound calls it
issues: a `none` fetch of the existing collection sends everything through one
create call; otherwise new records go through one create call (when any exist)
and each changed record through a per-record update call. -/
def handle_final_submission_with_updates (final_questions : List Question)
    (existing : Option (List Question)) : SubmissionCalls :=
  match existing with
  | none =>
    { createCalls := [final_questions], updateCalls := [], details := none }
  | some ex =>
    let c := categorize_questions_for_submission final_questions ex
    { createCalls := if c.1.isEmpty then [] else [c.1],
      updateCalls := if c.2.1.isEmpty then [] else update_existing_final_questions_calls c.2.1,
      details := some (c.1.length, c.2.1.length, c.2.2.length) }

/-- Projection forgetting the two fields `rank_answers` mutates; the ranking step
returns the same records up to this projection. -/
def eraseRankScore (a : Answer) : Answer := { a with rank := 0, score := 0 }

/-- The `(text, rank)` sort key of a (normalized) answer. -/
def keyOf (a : Answer) : String × Int := (a.answer, a.rank)

/-- Strict part of the `(text, rank)` key order. -/
def cmpKeyStrict (a b : Answer) : Prop := cmpKeyRel a b ∧ keyOf a ≠ keyOf b

/-- Classification predicate of `_categorize_questions_for_submission`: no lookup
match, hence "new". -/
def isNewAt (lookup : List (String × Question)) (q : Question) : Bool :=
  (dictFind lookup (questionKey q)).isNone

/-- Classification predicate: lookup match with changed answers, hence "updated". -/
def isChangedAt (lookup : List (String × Question)) (q : Question) : Bool :=
  match dictFind lookup (questionKey q) with
  | none => false
  | some ex => answers_have_changed q ex

/-- Classification predicate: lookup match with unchanged answers. -/
def isUnchangedAt (lookup : List (String × Question)) (q : Question) : Bool :=
  match dictFind lookup (questionKey q) with
  | none => false
  | some ex => !answers_have_changed q ex

/-- The `_existing_id` attachment performed on records classified as changed. -/
def attachExistingId (lookup : List (String × Question)) (q : Question) : Question :=
  match dictFind lookup (questionKey q) with
  | none => q
  | some ex => { q with existingId := ex.id }

/-! ### Lemmas about the Answer Ranker -/

theorem eraseRankScore_responseCount (a : Answer) :
    (eraseRankScore a).responseCount = a.responseCount := rfl

theorem eraseRankScore_isCorrect (a : Answer) :
    (eraseRankScore a).isCorrect = a.isCorrect := rfl

theorem assignRankScore_length (scoring : List Int) (n : Nat) (l : List Answer) :
    (assignRankScore scoring n l).length = l.length := by
  induction l generalizing n with
  | nil => rfl
  | cons a rest ih => simp [assignRankScore, ih]

theorem assignRankScore_map_erase (scoring : List Int) (n : Nat) (l : List Answer) :
    (assignRankScore scoring n l).map eraseRankScore = l.map eraseRankScore := by
  induction l generalizing n with
  | nil => rfl
  | cons a rest ih => simp [assignRankScore, ih, eraseRankScore]

theorem assignRankScore_mem_erase (scoring : List Int) {n : Nat} {l : List Answer}
    {x : Answer} (hx : x ∈ assignRankScore scoring n l) :
    ∃ a ∈ l, eraseRankScore x = eraseRankScore a := by
  have hm : eraseRankScore x ∈ l.map eraseRankScore := by
    rw [← assignRankScore_map_erase scoring n l]
    exact List.mem_map_of_mem _ hx
  obtain ⟨a, ha, he⟩ := List.mem_map.mp hm
  exact ⟨a, ha, he.symm⟩

theorem assignRankScore_rank_ge (scoring : List Int) :
    ∀ (l : List Answer) (n : Nat), ∀ x ∈ assignRankScore scoring n l,
      (n : Int) + 1 ≤ x.rank := by
  intro l
  induction l with
  | nil => intro n x hx; cases hx
  | cons a rest ih =>
    intro n x hx
    rcases List.mem_cons.mp hx with h | h
    · subst h; simp
    · have := ih (n + 1) x h
      push_cast at this ⊢
      omega

theorem assignRankScore_score_getD (scoring : List Int) :
    ∀ (l : List Answer) (n : Nat), ∀ x ∈ assignRankScore scoring n l,
      x.score = scoring.getD (x.rank.toNat - 1) 0 ∧ 1 ≤ x.rank := by
  intro l
  induction l with
  | nil => intro n x hx; cases hx
  | cons a rest ih =>
    intro n x hx
    rcases List.mem_cons.mp hx with h | h
    · subst h
      refine ⟨?_, by simp⟩
      have hn : (((n : Int) + 1).toNat - 1) = n := by omega
      simp [hn]
    · exact ih (n + 1) x h

theorem assignRankScore_pairwise (scoring : List Int) :
    ∀ (l : List Answer) (n : Nat), l.Pairwise respRel →
      (assignRankScore scoring n l).Pairwise
        (fun x y => x.rank < y.rank ∧ respRel x y) := by
  intro l
  induction l with
  | nil => intro n _; exact List.Pairwise.nil
  | cons a rest ih =>
    intro n h
    rw [List.pairwise_cons] at h
    simp only [assignRankScore]
    rw [List.pairwise_cons]
    refine ⟨?_, ih (n + 1) h.2⟩
    intro y hy
    obtain ⟨b, hb, he⟩ := assignRankScore_mem_erase scoring hy
    have hcount : y.responseCount = b.responseCount := by
      have := congrArg Answer.responseCount he
      simpa [eraseRankScore_responseCount] using this
    have hrank := assignRankScore_rank_ge scoring rest (n + 1) y hy
    constructor
    · push_cast at hrank ⊢; omega
    · have hab := h.1 b hb
      unfold respRel at hab ⊢
      simp only [hcount]
      exact hab

theorem assignRankScore_map_rank (scoring : List Int) :
    ∀ (l : List Answer) (n : Nat),
      (assignRankScore scoring n l).map (·.rank) =
        (List.range l.length).map (fun i => ((n + i : Nat) : Int) + 1) := by
  intro l
  induction l with
  | nil => intro n; rfl
  | cons a rest ih =>
    intro n
    simp only [assignRankScore, List.map_cons, List.length_cons,
      List.range_succ_eq_map, List.map_map]
    rw [ih (n + 1)]
    congr 1
    exact List.map_congr_left (fun i _ => by
      simp only [Function.comp_apply, Nat.succ_eq_add_one]
      push_cast
      ring)

theorem rank_answers_fst (scoring : List Int) (answers : List Answer) :
    (rank_answers scoring answers).1 =
      assignRankScore scoring 0
          ((answers.filter (·.isCorrect)).insertionSort respRel) ++
        reset_incorrect_answers (answers.filter (fun a => !a.isCorrect)) := by
  unfold rank_answers rank_correct_answers
  by_cases h : answers.isEmpty
  · rw [List.isEmpty_iff] at h
    subst h
    rfl
  · simp only [h, Bool.false_eq_true, if_false]
    by_cases h2 : (answers.filter (·.isCorrect)).isEmpty
    · rw [List.isEmpty_iff] at h2
      simp [h2, assignRankScore]
    · simp [h2]

theorem rank_answers_correct_part (scoring : List Int) (answers : List Answer) :
    (rank_answers scoring answers).1.filter (·.isCorrect) =
      assignRankScore scoring 0
        ((answers.filter (·.isCorrect)).insertionSort respRel) := by
  rw [rank_answers_fst, List.filter_append]
  have h1 : (assignRankScore scoring 0
      ((answers.filter (·.isCorrect)).insertionSort respRel)).filter (·.isCorrect) =
      assignRankScore scoring 0 ((answers.filter (·.isCorrect)).insertionSort respRel) := by
    apply List.filter_eq_self.mpr
    intro x hx
    obtain ⟨b, hb, he⟩ := assignRankScore_mem_erase scoring hx
    have hbmem : b ∈ answers.filter (·.isCorrect) := (List.mem_insertionSort respRel).mp hb
    have hbc : b.isCorrect := (List.mem_filter.mp hbmem).2
    have : x.isCorrect = b.isCorrect := by
      have := congrArg Answer.isCorrect he
      simpa [eraseRankScore_isCorrect] using this
    rw [this]; exact hbc
  have h2 : (reset_incorrect_answers
      (answers.filter (fun a => !a.isCorrect))).filter (·.isCorrect) = [] := by
    rw [List.filter_eq_nil_iff]
    intro x hx
    unfold reset_incorrect_answers at hx
    obtain ⟨b, hb, he⟩ := List.mem_map.mp hx
    have hbc : ¬b.isCorrect := by
      have := (List.mem_filter.mp hb).2
      simpa using this
    subst he
    simpa using hbc
  rw [h1, h2, List.append_nil]

theorem rank_answers_incorrect_part (scoring : List Int) (answers : List Answer) :
    (rank_answers scoring answers).1.filter (fun a => !a.isCorrect) =
      reset_incorrect_answers (answers.filter (fun a => !a.isCorrect)) := by
  rw [rank_answers_fst, List.filter_append]
  have h1 : (assignRankScore scoring 0
      ((answers.filter (·.isCorrect)).insertionSort respRel)).filter
        (fun a => !a.isCorrect) = [] := by
    rw [List.filter_eq_nil_iff]
    intro x hx
    obtain ⟨b, hb, he⟩ := assignRankScore_mem_erase scoring hx
    have hbmem : b ∈ answers.filter (·.isCorrect) := (List.mem_insertionSort respRel).mp hb
    have hbc : b.isCorrect := (List.mem_filter.mp hbmem).2
    have hx2 : x.isCorrect = b.isCorrect := by
      have := congrArg Answer.isCorrect he
      simpa [eraseRankScore_isCorrect] using this
    simp [hx2, hbc]
  have h2 : (reset_incorrect_answers
      (answers.filter (fun a => !a.isCorrect))).filter (fun a => !a.isCorrect) =
      reset_incorrect_answers (answers.filter (fun a => !a.isCorrect)) := by
    apply List.filter_eq_self.mpr
    intro x hx
    unfold reset_incorrect_answers at hx
    obtain ⟨b, hb, he⟩ := List.mem_map.mp hx
    have hbc := (List.mem_filter.mp hb).2
    subst he
    simpa using hbc
  rw [h1, h2, List.nil_append]

theorem rank_answers_snd (scoring : List Int) (answers : List Answer) :
    (rank_answers scoring answers).2.1 = (answers.filter (·.isCorrect)).length ∧
    (rank_answers scoring answers).2.2 =
      (assignRankScore scoring 0
        ((answers.filter (·.isCorrect)).insertionSort respRel)).countP
          (fun a => 0 < a.score) := by
  unfold rank_answers rank_correct_answers
  by_cases h : answers.isEmpty
  · rw [List.isEmpty_iff] at h; subst h; simp [assignRankScore]
  · simp only [h, Bool.false_eq_true, if_false]
    by_cases h2 : (answers.filter (·.isCorrect)).isEmpty
    · rw [List.isEmpty_iff] at h2; simp [h2, assignRankScore]
    · simp [h2, assignRankScore_length]

/-- C4: after `rank_answers`, every answer whose correctness flag is false has
`rank = 0` and `score = 0`, regardless of the rank and score it carried on
input (`_reset_incorrect_answers`). -/
theorem C4_incorrect_answer_invariant (scoring : List Int) (answers : List Answer)
    (x : Answer) (hx : x ∈ (rank_answers scoring answers).1)
    (hc : x.isCorrect = false) : x.rank = 0 ∧ x.score = 0 := by
  rw [rank_answers_fst] at hx
  rcases List.mem_append.mp hx with h | h
  · obtain ⟨b, hb, he⟩ := assignRankScore_mem_erase scoring h
    have hbmem : b ∈ answers.filter (·.isCorrect) := (List.mem_insertionSort respRel).mp hb
    have hbc : b.isCorrect := (List.mem_filter.mp hbmem).2
    have hxb : x.isCorrect = b.isCorrect := by
      have := congrArg Answer.isCorrect he
      simpa [eraseRankScore_isCorrect] using this
    rw [hc, hbc] at hxb
    cases hxb
  · unfold reset_incorrect_answers at h
    obtain ⟨b, hb, he⟩ := List.mem_map.mp h
    subst he
    exact ⟨rfl, rfl⟩

/-- Witness for C4 at a concrete input: an incorrect answer that entered ranking
with `rank = 5`, `score = 7` leaves it with both reset to 0. -/
theorem C4_incorrect_answer_invariant_witness :
    (⟨"b", false, 1, 0, 0⟩ : Answer).rank = 0 ∧ (⟨"b", false, 1, 0, 0⟩ : Answer).score = 0 :=
  C4_incorrect_answer_invariant [100] [⟨"a", true, 3, 0, 0⟩, ⟨"b", false, 1, 5, 7⟩]
    ⟨"b", false, 1, 0, 0⟩ (by decide) (by decide)

/-- C3: after `rank_answers`, the correct answers carry ranks exactly
`1, …, k` in output order (contiguous, duplicate-free); a correct answer with
strictly greater `responseCount` gets a strictly smaller rank; the answer
ranked `i+1` gets `scoring_values[i]`, or 0 beyond the table; and ties keep
input order (stability of the sort). -/
theorem C3_rank_contiguity_order_scoring (scoring : List Int) (answers : List Answer) :
    (((rank_answers scoring answers).1.filter (·.isCorrect)).map (·.rank) =
        (List.range (answers.filter (·.isCorrect)).length).map
          (fun i : Nat => (i : Int) + 1))
    ∧ (∀ x ∈ (rank_answers scoring answers).1.filter (·.isCorrect),
        ∀ y ∈ (rank_answers scoring answers).1.filter (·.isCorrect),
          y.responseCount < x.responseCount → x.rank < y.rank)
    ∧ (∀ x ∈ (rank_answers scoring answers).1.filter (·.isCorrect),
        x.score = scoring.getD (x.rank.toNat - 1) 0)
    ∧ (∀ a b : Answer, List.Sublist [a, b] (answers.filter (·.isCorrect)) →
        a.responseCount = b.responseCount →
        ∃ x ∈ (rank_answers scoring answers).1.filter (·.isCorrect),
          ∃ y ∈ (rank_answers scoring answers).1.filter (·.isCorrect),
            eraseRankScore x = eraseRankScore a ∧ eraseRankScore y = eraseRankScore b ∧
              x.rank < y.rank) := by
  have hsorted : ((answers.filter (·.isCorrect)).insertionSort respRel).Pairwise respRel :=
    List.sorted_insertionSort respRel (answers.filter (·.isCorrect))
  have hpw := assignRankScore_pairwise scoring
    ((answers.filter (·.isCorrect)).insertionSort respRel) 0 hsorted
  rw [rank_answers_correct_part]
  refine ⟨?_, ?_, ?_, ?_⟩
  · rw [assignRankScore_map_rank, List.length_insertionSort]
    exact List.map_congr_left (fun i _ => by norm_num)
  · intro x hx y hy hcount
    have hpw2 : (assignRankScore scoring 0
        ((answers.filter (·.isCorrect)).insertionSort respRel)).Pairwise
        (fun u v => (v.responseCount < u.responseCount → u.rank < v.rank) ∧
          (u.responseCount < v.responseCount → v.rank < u.rank)) := by
      refine hpw.imp ?_
      intro u v huv
      exact ⟨fun _ => huv.1, fun hlt => absurd hlt (not_lt.mpr huv.2)⟩
    have hsymm : Symmetric (fun u v : Answer =>
        (v.responseCount < u.responseCount → u.rank < v.rank) ∧
          (u.responseCount < v.responseCount → v.rank < u.rank)) := by
      intro u v h
      exact ⟨h.2, h.1⟩
    by_cases hxy : x = y
    · subst hxy; exact absurd hcount (lt_irrefl _)
    · exact (hpw2.forall hsymm hx hy hxy).1 hcount
  · intro x hx
    exact (assignRankScore_score_getD scoring _ 0 x hx).1
  · intro a b hsub hcount
    have hab : respRel a b := le_of_eq (by rw [hcount])
    have hs : List.Sublist [a, b] ((answers.filter (·.isCorrect)).insertionSort respRel) :=
      List.pair_sublist_insertionSort hab hsub
    have hmap : List.Sublist [eraseRankScore a, eraseRankScore b]
        ((assignRankScore scoring 0
          ((answers.filter (·.isCorrect)).insertionSort respRel)).map eraseRankScore) := by
      rw [assignRankScore_map_erase]
      exact hs.map eraseRankScore
    obtain ⟨l, hl, hlm⟩ := List.sublist_map_iff.mp hmap
    cases l with
    | nil => simp at hlm
    | cons x t =>
      cases t with
      | nil => simp at hlm
      | cons y t2 =>
        cases t2 with
        | cons z t3 => simp at hlm
        | nil =>
          simp only [List.map_cons, List.map_nil, List.cons.injEq, and_true] at hlm
          have hxm : x ∈ assignRankScore scoring 0
              ((answers.filter (·.isCorrect)).insertionSort respRel) :=
            hl.subset (by simp)
          have hym : y ∈ assignRankScore scoring 0
              ((answers.filter (·.isCorrect)).insertionSort respRel) :=
            hl.subset (by simp)
          have hpair := List.Pairwise.sublist hl hpw
          have hxy : x.rank < y.rank := (List.pairwise_pair.mp hpair).1
          exact ⟨x, hxm, y, hym, hlm.1.symm, hlm.2.symm, hxy⟩

/-- Witness for C3 at the end-to-end scenario of the specification: response
counts `[10, 7, 7, 2]`, scoring table `[100, 80, 60]`; the count-10 answer is
ranked strictly above the count-2 answer. -/
theorem C3_rank_contiguity_order_scoring_witness :
    (⟨"a", true, 10, 1, 100⟩ : Answer).rank < (⟨"d", true, 2, 4, 0⟩ : Answer).rank :=
  (C3_rank_contiguity_order_scoring [100, 80, 60]
      [⟨"a", true, 10, 0, 0⟩, ⟨"b", true, 7, 0, 0⟩, ⟨"c", true, 7, 0, 0⟩,
        ⟨"d", true, 2, 0, 0⟩]).2.1
    ⟨"a", true, 10, 1, 100⟩ (by decide) ⟨"d", true, 2, 4, 0⟩ (by decide) (by decide)

/-- C9: `rank_answers` is total on every answer list (empty, all-incorrect,
all-correct included); the output holds exactly the input records, mutated only
in rank/score, with correct answers first and incorrect answers after; the
ranked count is the number of correct answers and the scored count the number of
correct answers that were assigned a positive score. -/
theorem C9_rank_answers_totality_shape (scoring : List Int) (answers : List Answer) :
    ((rank_answers scoring answers).1.map eraseRankScore).Perm
        (answers.map eraseRankScore)
    ∧ (rank_answers scoring answers).1.length = answers.length
    ∧ (rank_answers scoring answers).1 =
        (rank_answers scoring answers).1.filter (·.isCorrect) ++
          (rank_answers scoring answers).1.filter (fun a => !a.isCorrect)
    ∧ (rank_answers scoring answers).2.1 = (answers.filter (·.isCorrect)).length
    ∧ (rank_answers scoring answers).2.2 =
        ((rank_answers scoring answers).1.filter (·.isCorrect)).countP
          (fun a => 0 < a.score) := by
  have hperm : ((rank_answers scoring answers).1.map eraseRankScore).Perm
      (answers.map eraseRankScore) := by
    rw [rank_answers_fst, List.map_append, assignRankScore_map_erase]
    have hreset : (reset_incorrect_answers
        (answers.filter (fun a => !a.isCorrect))).map eraseRankScore =
        (answers.filter (fun a => !a.isCorrect)).map eraseRankScore := by
      unfold reset_incorrect_answers
      rw [List.map_map]
      rfl
    rw [hreset, ← List.map_append]
    apply List.Perm.map
    exact ((List.perm_insertionSort respRel
        (answers.filter (·.isCorrect))).append_right _).trans
      (List.filter_append_perm (·.isCorrect) answers)
  refine ⟨hperm, ?_, ?_, (rank_answers_snd scoring answers).1, ?_⟩
  · have := hperm.length_eq
    simpa using this
  · rw [rank_answers_correct_part, rank_answers_incorrect_part, rank_answers_fst]
  · rw [rank_answers_correct_part]
    exact (rank_answers_snd scoring answers).2

theorem buildInputFinalAnswers_eq (l : List Answer) :
    buildInputFinalAnswers l =
      if l.all (fun a => !(pyStrip a.answer = "")) then
        some (l.map formatInputFinalAnswer)
      else none := by
  induction l with
  | nil => rfl
  | cons a rest ih =>
    simp only [buildInputFinalAnswers, ih, List.all_cons, List.map_cons]
    by_cases h : pyStrip a.answer = ""
    · simp [formatInputFinalAnswer, h]
    · by_cases h2 : rest.all (fun a => !(pyStrip a.answer = ""))
      · simp [formatInputFinalAnswer, h, h2]
      · simp [formatInputFinalAnswer, h, h2]

/-- C2: an Input question is deemed eligible for final submission iff it has at
least 3 answers that are correct with positive rank and positive score and none
of the top 3 such answers (ascending rank) has empty trimmed text; when eligible
exactly those top 3 are emitted, coerced with trimmed text and `isCorrect`
forced to `True`; with only 2 qualifying answers it is never eligible. -/
theorem C2_input_final_eligibility (all_answers : List Answer) :
    ((prepare_input_question_for_final all_answers).1 = true ↔
      (3 ≤ (all_answers.filter qualifiesForInputFinal).length ∧
        ∀ a ∈ ((all_answers.filter qualifiesForInputFinal).insertionSort rankRel).take 3,
          ¬(pyStrip a.answer = "")))
    ∧ ((prepare_input_question_for_final all_answers).1 = true →
        (prepare_input_question_for_final all_answers).2 =
          (((all_answers.filter qualifiesForInputFinal).insertionSort rankRel).take 3).map
            formatInputFinalAnswer)
    ∧ ((all_answers.filter qualifiesForInputFinal).length = 2 →
        (prepare_input_question_for_final all_answers).1 = false) := by
  unfold prepare_input_question_for_final
  by_cases hlen : (all_answers.filter qualifiesForInputFinal).length < 3
  · rw [if_pos hlen]
    refine ⟨?_, ?_, ?_⟩
    · constructor
      · intro h; simp at h
      · intro h; exact absurd h.1 (by omega)
    · intro h; simp at h
    · intro _; rfl
  · rw [if_neg hlen, buildInputFinalAnswers_eq]
    by_cases hall : (((all_answers.filter qualifiesForInputFinal).insertionSort
        rankRel).take 3).all (fun a => !(pyStrip a.answer = "")) = true
    · rw [if_pos hall]
      refine ⟨?_, fun _ => rfl, fun h2 => absurd h2 (by omega)⟩
      constructor
      · intro _
        refine ⟨by omega, fun a ha => ?_⟩
        have := List.all_eq_true.mp hall a ha
        simpa using this
      · intro _; rfl
    · rw [if_neg hall]
      refine ⟨?_, ?_, fun h2 => absurd h2 (by omega)⟩
      · constructor
        · intro h; simp at h
        · rintro ⟨-, hforall⟩
          exfalso
          apply hall
          rw [List.all_eq_true]
          intro a ha
          simpa using hforall a ha
      · intro h; simp at h

/-- Witness for C2 at a concrete Input question: 3 qualifying answers (plus one
incorrect) make it eligible and the emitted list is the coerced top 3. -/
theorem C2_input_final_eligibility_witness :
    (prepare_input_question_for_final
        [⟨" One ", true, 5, 1, 100⟩, ⟨"Two", true, 4, 2, 80⟩,
          ⟨"Three", true, 3, 3, 60⟩, ⟨"junk", false, 9, 0, 0⟩]).2 =
      (((([⟨" One ", true, 5, 1, 100⟩, ⟨"Two", true, 4, 2, 80⟩,
          ⟨"Three", true, 3, 3, 60⟩, ⟨"junk", false, 9, 0, 0⟩] :
            List Answer).filter qualifiesForInputFinal).insertionSort
              rankRel).take 3).map formatInputFinalAnswer :=
  (C2_input_final_eligibility
      [⟨" One ", true, 5, 1, 100⟩, ⟨"Two", true, 4, 2, 80⟩,
        ⟨"Three", true, 3, 3, 60⟩, ⟨"junk", false, 9, 0, 0⟩]).2.1 (by decide)

/-- Counterexample to C1 as stated: a concrete MCQ question with 4 answers,
exactly 1 correct, all trimmed texts non-empty and pairwise distinct after
normalization — yet `_prepare_questions_for_final_submission` emits nothing for
it, because that step skips every non-Input question before the MCQ rule can
run. -/
theorem C1_mcq_final_counterexample :
    (pyLower (⟨none, "Capital of France?", "MCQ", "Geo", "Easy", 0, 9,
        [⟨"Paris", true, 5, 1, 100⟩, ⟨"Lyon", false, 2, 0, 0⟩,
          ⟨"Nice", false, 1, 0, 0⟩, ⟨"Lille", false, 1, 0, 0⟩], none⟩ :
            Question).questionType = "mcq"
      ∧ ((⟨none, "Capital of France?", "MCQ", "Geo", "Easy", 0, 9,
          [⟨"Paris", true, 5, 1, 100⟩, ⟨"Lyon", false, 2, 0, 0⟩,
            ⟨"Nice", false, 1, 0, 0⟩, ⟨"Lille", false, 1, 0, 0⟩], none⟩ :
              Question).answers.length = 4)
      ∧ (((⟨none, "Capital of France?", "MCQ", "Geo", "Easy", 0, 9,
          [⟨"Paris", true, 5, 1, 100⟩, ⟨"Lyon", false, 2, 0, 0⟩,
            ⟨"Nice", false, 1, 0, 0⟩, ⟨"Lille", false, 1, 0, 0⟩], none⟩ :
              Question).answers.filter (·.isCorrect)).length = 1)
      ∧ (∀ a ∈ (⟨none, "Capital of France?", "MCQ", "Geo", "Easy", 0, 9,
          [⟨"Paris", true, 5, 1, 100⟩, ⟨"Lyon", false, 2, 0, 0⟩,
            ⟨"Nice", false, 1, 0, 0⟩, ⟨"Lille", false, 1, 0, 0⟩], none⟩ :
              Question).answers, ¬(pyStrip a.answer = ""))
      ∧ ((⟨none, "Capital of France?", "MCQ", "Geo", "Easy", 0, 9,
          [⟨"Paris", true, 5, 1, 100⟩, ⟨"Lyon", false, 2, 0, 0⟩,
            ⟨"Nice", false, 1, 0, 0⟩, ⟨"Lille", false, 1, 0, 0⟩], none⟩ :
              Question).answers.map (fun a => pyLower (pyStrip a.answer))).Nodup
      ∧ prepare_questions_for_final_submission
          [⟨none, "Capital of France?", "MCQ", "Geo", "Easy", 0, 9,
            [⟨"Paris", true, 5, 1, 100⟩, ⟨"Lyon", false, 2, 0, 0⟩,
              ⟨"Nice", false, 1, 0, 0⟩, ⟨"Lille", false, 1, 0, 0⟩], none⟩] = []) := by
  decide

/-- C1 (amended): for an MCQ question (case-insensitive type tag) with exactly 4
answers, exactly 1 correct, non-empty trimmed texts, pairwise-distinct
normalized texts, the MCQ preparation rule `_prepare_mcq_question_for_final`
classifies it eligible and emits all 4 type-coerced answers preserving each
correctness flag, and a question with 2 correct answers is never MCQ-eligible —
but `_prepare_questions_for_final_submission` itself skips every non-Input
question, so such an MCQ question contributes nothing to the prepared final
submission. -/
theorem C1_mcq_final_amended (q : Question) (ans : List Answer)
    (h4 : ans.length = 4)
    (h1 : (ans.filter (·.isCorrect)).length = 1)
    (hne : ∀ a ∈ ans, ¬(pyStrip a.answer = ""))
    (hdist : (ans.map (fun a => pyLower (pyStrip a.answer))).Nodup)
    (hq : pyLower q.questionType = "mcq") :
    prepare_mcq_question_for_final ans = (true, ans.map formatMcqFinalAnswer)
    ∧ (∀ ans2 : List Answer, (ans2.filter (·.isCorrect)).length = 2 →
        (prepare_mcq_question_for_final ans2).1 = false)
    ∧ prepare_questions_for_final_submission [q] = [] := by
  refine ⟨?_, ?_, ?_⟩
  · unfold prepare_mcq_question_for_final
    rw [if_neg (by omega), if_neg (by omega)]
    have hany : ans.any (fun a => pyStrip a.answer = "") = false := by
      rw [List.any_eq_false]
      intro a ha
      simpa using hne a ha
    rw [if_neg (by simp [hany])]
    rw [if_neg ?_]
    rw [List.dedup_eq_self.mpr hdist]
    simp
  · intro ans2 h2
    unfold prepare_mcq_question_for_final
    by_cases hl : ans2.length ≠ 4
    · rw [if_pos hl]
    · rw [if_neg hl, if_pos (by omega)]
  · unfold prepare_questions_for_final_submission
    rw [if_pos ?_]
    · rfl
    · rw [hq]
      decide

/-- Witness for the amended C1 at a concrete MCQ question. -/
theorem C1_mcq_final_amended_witness :
    prepare_mcq_question_for_final
        [⟨"Paris", true, 5, 1, 100⟩, ⟨"Lyon", false, 2, 0, 0⟩,
          ⟨"Nice", false, 1, 0, 0⟩, ⟨"Lille", false, 1, 0, 0⟩] =
      (true, ([⟨"Paris", true, 5, 1, 100⟩, ⟨"Lyon", false, 2, 0, 0⟩,
          ⟨"Nice", false, 1, 0, 0⟩, ⟨"Lille", false, 1, 0, 0⟩] :
            List Answer).map formatMcqFinalAnswer) :=
  (C1_mcq_final_amended
      ⟨none, "Capital?", "mcq", "Geo", "Easy", 0, 9, [], none⟩
      [⟨"Paris", true, 5, 1, 100⟩, ⟨"Lyon", false, 2, 0, 0⟩,
        ⟨"Nice", false, 1, 0, 0⟩, ⟨"Lille", false, 1, 0, 0⟩]
      (by decide) (by decide) (by decide) (by decide) (by decide)).1

/-! ### Lemmas about the reconciliation engine -/

theorem categorizeGo_eq (lookup : List (String × Question)) (finals : List Question) :
    categorizeGo lookup finals =
      (finals.filter (isNewAt lookup),
       (finals.filter (isChangedAt lookup)).map (attachExistingId lookup),
       finals.filter (isUnchangedAt lookup)) := by
  induction finals with
  | nil => rfl
  | cons q rest ih =>
    simp only [categorizeGo, ih]
    cases hfind : dictFind lookup (questionKey q) with
    | none =>
      simp [isNewAt, isChangedAt, isUnchangedAt, hfind]
    | some ex =>
      by_cases hch : answers_have_changed q ex
      · simp [isNewAt, isChangedAt, isUnchangedAt, attachExistingId, hfind, hch]
      · simp [isNewAt, isChangedAt, isUnchangedAt, attachExistingId, hfind, hch]

theorem categorize_countP (lookup : List (String × Question)) (finals : List Question) :
    finals.countP (isNewAt lookup) + finals.countP (isChangedAt lookup) +
      finals.countP (isUnchangedAt lookup) = finals.length := by
  induction finals with
  | nil => rfl
  | cons q rest ih =>
    simp only [List.countP_cons, List.length_cons]
    cases hfind : dictFind lookup (questionKey q) with
    | none =>
      simp only [isNewAt, isChangedAt, isUnchangedAt, hfind]
      simp
      omega
    | some ex =>
      by_cases hch : answers_have_changed q ex
      · simp only [isNewAt, isChangedAt, isUnchangedAt, hfind]
        simp [hch]
        omega
      · simp only [isNewAt, isChangedAt, isUnchangedAt, hfind]
        simp [hch]
        omega

theorem insertLookup_cons_ne (p : String × Question) (rest : List (String × Question))
    (k : String) (v : Question) (h : ¬ p.1 = k) :
    insertLookup (p :: rest) k v = p :: insertLookup rest k v := by
  unfold insertLookup
  by_cases h2 : rest.any (fun q => q.1 = k)
  · simp [List.any_cons, h, h2]
  · simp [List.any_cons, h, h2]

theorem insertLookup_cons_eq (p : String × Question) (rest : List (String × Question))
    (k : String) (v : Question) (h : p.1 = k) :
    insertLookup (p :: rest) k v =
      (k, v) :: rest.map (fun q => if q.1 = k then (k, v) else q) := by
  unfold insertLookup
  simp [List.any_cons, h]

theorem find_in_replaced (rest : List (String × Question)) (k k2 : String)
    (v : Question) (hne : ¬ k2 = k) :
    (rest.map (fun p => if p.1 = k then (k, v) else p)).find? (fun p => p.1 = k2) =
      rest.find? (fun p => p.1 = k2) := by
  induction rest with
  | nil => rfl
  | cons q rest ih =>
    by_cases hq : q.1 = k
    · have h1 : ¬ ((k, v).1 = k2) := fun h => hne h.symm
      have h2 : ¬ (q.1 = k2) := by rw [hq]; exact fun h => hne h.symm
      simp only [List.map_cons, if_pos hq, List.find?_cons]
      simp only [h1, h2, decide_eq_true_eq, decide_eq_false_iff_not]
      simp [h1, h2, ih]
    · simp only [List.map_cons, if_neg hq, List.find?_cons]
      by_cases hq2 : q.1 = k2
      · simp [hq2]
      · simp [hq2, ih]

theorem dictFind_insertLookup (d : List (String × Question)) (k : String)
    (v : Question) (k2 : String) :
    dictFind (insertLookup d k v) k2 =
      if k2 = k then some v else dictFind d k2 := by
  induction d with
  | nil =>
    unfold insertLookup dictFind
    by_cases h : k2 = k
    · simp [h]
    · have h2 : ¬ k = k2 := fun hh => h hh.symm
      simp [h, h2]
  | cons p rest ih =>
    by_cases hp : p.1 = k
    · rw [insertLookup_cons_eq p rest k v hp]
      by_cases h : k2 = k
      · subst h
        unfold dictFind
        rw [List.find?_cons_of_pos _ (by simp), if_pos rfl]
        rfl
      · unfold dictFind
        rw [if_neg h]
        rw [List.find?_cons_of_neg _ (by simpa using fun hh : k = k2 => h hh.symm)]
        rw [find_in_replaced rest k k2 v h]
        rw [List.find?_cons_of_neg _ (by
          simp only [decide_eq_true_eq]
          rw [hp]
          exact fun hh => h hh.symm)]
    · rw [insertLookup_cons_ne p rest k v hp]
      by_cases hq2 : p.1 = k2
      · have h : ¬ k2 = k := by rw [← hq2]; exact fun hh => hp hh
        unfold dictFind
        rw [if_neg h]
        rw [List.find?_cons_of_pos _ (by simp [hq2]),
          List.find?_cons_of_pos _ (by simp [hq2])]
      · unfold dictFind at ih ⊢
        rw [List.find?_cons_of_neg _ (by simp [hq2])]
        by_cases h : k2 = k
        · rw [if_pos h]
          rw [if_pos h] at ih
          exact ih
        · rw [if_neg h]
          rw [if_neg h] at ih
          rw [List.find?_cons_of_neg _ (by simp [hq2])]
          exact ih

theorem dictFind_foldl_preserved (rest : List Question) :
    ∀ (d : List (String × Question)) (k : String),
      (∀ e ∈ rest, ¬ questionKey e = k) →
      dictFind (rest.foldl buildLookupStep d) k = dictFind d k := by
  induction rest with
  | nil => intro d k _; rfl
  | cons e rest ih =>
    intro d k h
    simp only [List.foldl_cons]
    rw [ih _ k (fun x hx => h x (List.mem_cons_of_mem _ hx))]
    unfold buildLookupStep
    by_cases hk : questionKey e = ""
    · rw [if_pos hk]
    · rw [if_neg hk, dictFind_insertLookup,
        if_neg (fun hh : k = questionKey e => h e (List.mem_cons_self e rest) hh.symm)]

theorem buildLookup_keys_ne (existing : List Question) :
    ∀ p ∈ buildLookup existing, ¬(p.1 = "") := by
  unfold buildLookup
  suffices h : ∀ (d : List (String × Question)), (∀ p ∈ d, ¬(p.1 = "")) →
      ∀ p ∈ existing.foldl buildLookupStep d, ¬(p.1 = "") by
    exact h [] (by intro p hp; cases hp)
  induction existing with
  | nil => intro d hd p hp; exact hd p hp
  | cons e rest ih =>
    intro d hd p hp
    simp only [List.foldl_cons] at hp
    apply ih _ ?_ p hp
    intro q hq
    unfold buildLookupStep at hq
    by_cases hk : questionKey e = ""
    · rw [if_pos hk] at hq
      exact hd q hq
    · rw [if_neg hk] at hq
      unfold insertLookup at hq
      by_cases hany : d.any (fun r => r.1 = questionKey e)
      · rw [if_pos hany] at hq
        obtain ⟨r, hr, hrq⟩ := List.mem_map.mp hq
        by_cases hrk : r.1 = questionKey e
        · rw [if_pos hrk] at hrq
          subst hrq
          exact hk
        · rw [if_neg hrk] at hrq
          subst hrq
          exact hd r hr
      · rw [if_neg hany] at hq
        rcases List.mem_append.mp hq with h1 | h1
        · exact hd q h1
        · have : q = (questionKey e, e) := by simpa using h1
          subst this
          exact hk

theorem dictFind_buildLookup_empty_key (existing : List Question) :
    dictFind (buildLookup existing) "" = none := by
  unfold dictFind
  have h : List.find? (fun p => p.1 = "") (buildLookup existing) = none := by
    rw [List.find?_eq_none]
    intro p hp
    simpa using buildLookup_keys_ne existing p hp
  rw [h]
  rfl

theorem dictFind_buildLookup_self (existing : List Question)
    (hkeys : (existing.map questionKey).Nodup)
    (hne : ∀ e ∈ existing, ¬ questionKey e = "") :
    ∀ e ∈ existing, dictFind (buildLookup existing) (questionKey e) = some e := by
  unfold buildLookup
  induction existing with
  | nil => intro e he; cases he
  | cons e0 rest ih =>
    intro e he
    have hnodup2 : (∀ x ∈ rest, ¬ questionKey x = questionKey e0) ∧
        (rest.map questionKey).Nodup := by simpa using hkeys
    simp only [List.foldl_cons]
    rcases List.mem_cons.mp he with rfl | hmem
    · have hrest : ∀ x ∈ rest, ¬ questionKey x = questionKey e :=
        fun x hx heq => hnodup2.1 x hx heq
      rw [dictFind_foldl_preserved rest _ _ hrest]
      unfold buildLookupStep
      rw [if_neg (hne e (List.mem_cons_self e rest)), dictFind_insertLookup, if_pos rfl]
    · have hstep : ∀ x ∈ rest, dictFind (buildLookupStep [] e0) (questionKey x) = none := by
        intro x hx
        unfold buildLookupStep
        by_cases hk : questionKey e0 = ""
        · rw [if_pos hk]; rfl
        · rw [if_neg hk, dictFind_insertLookup,
            if_neg (fun hh : questionKey x = questionKey e0 => hnodup2.1 x hx hh)]
          rfl
      have main : ∀ (d : List (String × Question)),
          (∀ x ∈ rest, dictFind d (questionKey x) = none) →
          ∀ x ∈ rest, dictFind (rest.foldl buildLookupStep d) (questionKey x) = some x := by
        clear hstep he hmem ih
        have hnodup3 := hnodup2.2
        have hne3 : ∀ x ∈ rest, ¬ questionKey x = "" :=
          fun x hx => hne x (List.mem_cons_of_mem _ hx)
        clear hnodup2 hkeys hne
        induction rest with
        | nil => intro d _ x hx; cases hx
        | cons r0 rtail ih2 =>
          intro d hd x hx
          have hnodup4 : (∀ y ∈ rtail, ¬ questionKey y = questionKey r0) ∧
              (rtail.map questionKey).Nodup := by simpa using hnodup3
          simp only [List.foldl_cons]
          rcases List.mem_cons.mp hx with rfl | hxm
          · have hrtail : ∀ y ∈ rtail, ¬ questionKey y = questionKey x :=
              fun y hy heq => hnodup4.1 y hy heq
            rw [dictFind_foldl_preserved rtail _ _ hrtail]
            unfold buildLookupStep
            rw [if_neg (hne3 x (List.mem_cons_self x rtail)), dictFind_insertLookup,
              if_pos rfl]
          · apply ih2 hnodup4.2 (fun y hy => hne3 y (List.mem_cons_of_mem _ hy)) _ ?_ x hxm
            intro y hy
            unfold buildLookupStep
            by_cases hk : questionKey r0 = ""
            · rw [if_pos hk]
              exact hd y (List.mem_cons_of_mem _ hy)
            · rw [if_neg hk, dictFind_insertLookup,
                if_neg (fun hh : questionKey y = questionKey r0 => hnodup4.1 y hy hh)]
              exact hd y (List.mem_cons_of_mem _ hy)
      exact main (buildLookupStep [] e0) hstep e hmem

theorem answers_have_changed_self (q : Question) :
    answers_have_changed q q = false := by
  unfold answers_have_changed
  simp

/-- C5: reconciliation classifies each local record through the normalized-key
lookup: new iff no remote match, changed iff matched with changed answers (the
matched remote record's identifier being attached as `_existing_id`), unchanged
iff matched with unchanged answers; the three buckets are mutually exclusive and
exhaustive over the local record set. -/
theorem C5_categorize_partition (finals existing : List Question) :
    (categorize_questions_for_submission finals existing).1 =
        finals.filter (isNewAt (buildLookup existing))
    ∧ (categorize_questions_for_submission finals existing).2.1 =
        (finals.filter (isChangedAt (buildLookup existing))).map
          (attachExistingId (buildLookup existing))
    ∧ (categorize_questions_for_submission finals existing).2.2 =
        finals.filter (isUnchangedAt (buildLookup existing))
    ∧ (∀ q : Question,
        (isNewAt (buildLookup existing) q = true ∨
          isChangedAt (buildLookup existing) q = true ∨
          isUnchangedAt (buildLookup existing) q = true)
        ∧ ¬(isNewAt (buildLookup existing) q = true ∧
            isChangedAt (buildLookup existing) q = true)
        ∧ ¬(isNewAt (buildLookup existing) q = true ∧
            isUnchangedAt (buildLookup existing) q = true)
        ∧ ¬(isChangedAt (buildLookup existing) q = true ∧
            isUnchangedAt (buildLookup existing) q = true))
    ∧ (categorize_questions_for_submission finals existing).1.length +
        (categorize_questions_for_submission finals existing).2.1.length +
        (categorize_questions_for_submission finals existing).2.2.length =
          finals.length := by
  have hc := categorizeGo_eq (buildLookup existing) finals
  unfold categorize_questions_for_submission
  refine ⟨by rw [hc], by rw [hc], by rw [hc], ?_, ?_⟩
  · intro q
    unfold isNewAt isChangedAt isUnchangedAt
    cases hfind : dictFind (buildLookup existing) (questionKey q) with
    | none => simp
    | some ex => by_cases hch : answers_have_changed q ex <;> simp [hch]
  · rw [hc]
    simp only [List.length_map]
    rw [← List.countP_eq_length_filter, ← List.countP_eq_length_filter,
      ← List.countP_eq_length_filter]
    exact categorize_countP (buildLookup existing) finals

/-- C8: when fetching the existing final collection yields no determinable state
(`None`), every prepared final record is submitted through one create call and
no per-record update call is issued. -/
theorem C8_null_fetch_all_created (final_questions : List Question) :
    (handle_final_submission_with_updates final_questions none).createCalls =
        [final_questions]
    ∧ (handle_final_submission_with_updates final_questions none).updateCalls = [] :=
  ⟨rfl, rfl⟩

/-- C10: remote records whose normalized question text is empty are omitted from
the lookup; a local record with empty trimmed text is always classified new, and
no changed or unchanged record has an empty normalized text. -/
theorem C10_empty_text_always_new (finals existing : List Question)
    (q : Question) (hq : q ∈ finals) (hkey : questionKey q = "") :
    (∀ p ∈ buildLookup existing, ¬(p.1 = ""))
    ∧ q ∈ (categorize_questions_for_submission finals existing).1
    ∧ (∀ u ∈ (categorize_questions_for_submission finals existing).2.1,
        ¬(questionKey u = ""))
    ∧ (∀ u ∈ (categorize_questions_for_submission finals existing).2.2,
        ¬(questionKey u = "")) := by
  have hc := categorizeGo_eq (buildLookup existing) finals
  unfold categorize_questions_for_submission
  rw [hc]
  refine ⟨buildLookup_keys_ne existing, ?_, ?_, ?_⟩
  · apply List.mem_filter.mpr
    refine ⟨hq, ?_⟩
    unfold isNewAt
    rw [hkey, dictFind_buildLookup_empty_key]
    rfl
  · intro u hu
    obtain ⟨w, hw, hwu⟩ := List.mem_map.mp hu
    have hwch := (List.mem_filter.mp hw).2
    unfold isChangedAt at hwch
    cases hfind : dictFind (buildLookup existing) (questionKey w) with
    | none => rw [hfind] at hwch; simp at hwch
    | some ex =>
      have hkw : ¬ questionKey w = "" := by
        intro h0
        rw [h0, dictFind_buildLookup_empty_key] at hfind
        cases hfind
      have hkeq : questionKey u = questionKey w := by
        subst hwu
        unfold attachExistingId
        rw [hfind]
        rfl
      rw [hkeq]; exact hkw
  · intro u hu
    have huc := (List.mem_filter.mp hu).2
    unfold isUnchangedAt at huc
    cases hfind : dictFind (buildLookup existing) (questionKey u) with
    | none => rw [hfind] at huc; simp at huc
    | some ex =>
      intro h0
      rw [h0, dictFind_buildLookup_empty_key] at hfind
      cases hfind

/-- Witness for C10 at a concrete local record with whitespace-only question
text: it lands in the new bucket even though the remote collection contains a
record with the same (empty) normalized text. -/
theorem C10_empty_text_always_new_witness :
    (⟨none, "  ", "Input", "c", "l", 0, 0, [⟨"a", true, 1, 1, 100⟩], none⟩ : Question) ∈
      (categorize_questions_for_submission
        [⟨none, "  ", "Input", "c", "l", 0, 0, [⟨"a", true, 1, 1, 100⟩], none⟩]
        [⟨none, " ", "Input", "c", "l", 0, 0, [⟨"a", true, 1, 1, 100⟩], none⟩]).1 :=
  (C10_empty_text_always_new
      [⟨none, "  ", "Input", "c", "l", 0, 0, [⟨"a", true, 1, 1, 100⟩], none⟩]
      [⟨none, " ", "Input", "c", "l", 0, 0, [⟨"a", true, 1, 1, 100⟩], none⟩]
      ⟨none, "  ", "Input", "c", "l", 0, 0, [⟨"a", true, 1, 1, 100⟩], none⟩
      (by decide) (by decide)).2.1

/-- Counterexample to C7 as stated: local and remote final sets are identical
(one record whose question text is whitespace-only, hence an empty normalized
key), every local record has a remote counterpart with equal answers — yet
reconciliation classifies the record as new, not unchanged, and a create call is
issued. -/
theorem C7_reconciliation_idempotent_counterexample :
    ((categorize_questions_for_submission
        [⟨none, " ", "Input", "c", "l", 0, 0, [⟨"a", true, 1, 1, 100⟩], none⟩]
        [⟨none, " ", "Input", "c", "l", 0, 0, [⟨"a", true, 1, 1, 100⟩], none⟩]).2.2 = []
    ∧ (categorize_questions_for_submission
        [⟨none, " ", "Input", "c", "l", 0, 0, [⟨"a", true, 1, 1, 100⟩], none⟩]
        [⟨none, " ", "Input", "c", "l", 0, 0, [⟨"a", true, 1, 1, 100⟩], none⟩]).1 =
          [⟨none, " ", "Input", "c", "l", 0, 0, [⟨"a", true, 1, 1, 100⟩], none⟩]
    ∧ ¬((handle_final_submission_with_updates
        [⟨none, " ", "Input", "c", "l", 0, 0, [⟨"a", true, 1, 1, 100⟩], none⟩]
        (some [⟨none, " ", "Input", "c", "l", 0, 0,
          [⟨"a", true, 1, 1, 100⟩], none⟩])).createCalls = [])) := by
  decide

/-- C7 (amended): with identical local and remote final sets in which every
record's trimmed question text is non-empty and no two records share a
normalized key, reconciliation classifies every record unchanged and the
submission step issues zero create calls and zero per-record update calls; the
step is a pure function of its inputs and issues no write, so a second run over
the same unchanged state yields the same outcome. -/
theorem C7_reconciliation_idempotent (finals : List Question)
    (hkeys : (finals.map questionKey).Nodup)
    (hne : ∀ q ∈ finals, ¬ questionKey q = "") :
    categorize_questions_for_submission finals finals = ([], [], finals)
    ∧ (handle_final_submission_with_updates finals (some finals)).createCalls = []
    ∧ (handle_final_submission_with_updates finals (some finals)).updateCalls = []
    ∧ (handle_final_submission_with_updates finals (some finals)).details =
        some (0, 0, finals.length) := by
  have hcat : categorize_questions_for_submission finals finals = ([], [], finals) := by
    unfold categorize_questions_for_submission
    rw [categorizeGo_eq]
    have hnew : finals.filter (isNewAt (buildLookup finals)) = [] := by
      rw [List.filter_eq_nil_iff]
      intro q hq
      unfold isNewAt
      rw [dictFind_buildLookup_self finals hkeys hne q hq]
      simp
    have hch : finals.filter (isChangedAt (buildLookup finals)) = [] := by
      rw [List.filter_eq_nil_iff]
      intro q hq
      unfold isChangedAt
      rw [dictFind_buildLookup_self finals hkeys hne q hq]
      simp [answers_have_changed_self]
    have hun : finals.filter (isUnchangedAt (buildLookup finals)) = finals := by
      rw [List.filter_eq_self]
      intro q hq
      unfold isUnchangedAt
      rw [dictFind_buildLookup_self finals hkeys hne q hq]
      simp [answers_have_changed_self]
    rw [hnew, hch, hun]
    rfl
  refine ⟨hcat, ?_, ?_, ?_⟩ <;>
    simp [handle_final_submission_with_updates, hcat]

/-- Witness for the amended C7 at a concrete one-record final set. -/
theorem C7_reconciliation_idempotent_witness :
    categorize_questions_for_submission
        [⟨none, "Q one", "Input", "c", "l", 0, 0, [⟨"a", true, 1, 1, 100⟩], none⟩]
        [⟨none, "Q one", "Input", "c", "l", 0, 0, [⟨"a", true, 1, 1, 100⟩], none⟩] =
      ([], [], [⟨none, "Q one", "Input", "c", "l", 0, 0, [⟨"a", true, 1, 1, 100⟩], none⟩]) :=
  (C7_reconciliation_idempotent
      [⟨none, "Q one", "Input", "c", "l", 0, 0, [⟨"a", true, 1, 1, 100⟩], none⟩]
      (by decide) (by decide)).1

/-! ### The (text, rank) key order used by the normalized answer comparison -/

theorem char_eq_of_toNat_eq {a b : Char} (h : a.toNat = b.toNat) : a = b :=
  Char.ext (UInt32.toNat.inj h)

theorem charListLt_irrefl : ∀ xs : List Char, charListLt xs xs = false
  | [] => rfl
  | a :: as => by
    unfold charListLt
    rw [if_neg (lt_irrefl _), if_neg (lt_irrefl _)]
    exact charListLt_irrefl as

theorem charListLt_trans : ∀ (xs ys zs : List Char), charListLt xs ys = true →
    charListLt ys zs = true → charListLt xs zs = true := by
  intro xs
  induction xs with
  | nil =>
    intro ys zs h1 h2
    cases ys with
    | nil => simp [charListLt] at h1
    | cons b bs =>
      cases zs with
      | nil => simp [charListLt] at h2
      | cons c cs => rfl
  | cons a as ih =>
    intro ys zs h1 h2
    cases ys with
    | nil => simp [charListLt] at h1
    | cons b bs =>
      cases zs with
      | nil => simp [charListLt] at h2
      | cons c cs =>
        unfold charListLt at h1 h2 ⊢
        by_cases hab : a.toNat < b.toNat
        · rw [if_pos hab] at h1
          by_cases hbc : b.toNat < c.toNat
          · rw [if_pos (show a.toNat < c.toNat by omega)]
          · rw [if_neg hbc] at h2
            by_cases hcb : c.toNat < b.toNat
            · rw [if_pos hcb] at h2; simp at h2
            · rw [if_pos (show a.toNat < c.toNat by omega)]
        · rw [if_neg hab] at h1
          by_cases hba : b.toNat < a.toNat
          · rw [if_pos hba] at h1; simp at h1
          · rw [if_neg hba] at h1
            by_cases hbc : b.toNat < c.toNat
            · rw [if_pos (show a.toNat < c.toNat by omega)]
            · rw [if_neg hbc] at h2
              by_cases hcb : c.toNat < b.toNat
              · rw [if_pos hcb] at h2; simp at h2
              · rw [if_neg hcb] at h2
                rw [if_neg (show ¬ a.toNat < c.toNat by omega),
                  if_neg (show ¬ c.toNat < a.toNat by omega)]
                exact ih bs cs h1 h2

theorem charListLt_asymm (xs ys : List Char) (h1 : charListLt xs ys = true)
    (h2 : charListLt ys xs = true) : False := by
  have h := charListLt_trans xs ys xs h1 h2
  rw [charListLt_irrefl] at h
  simp at h

theorem charListLt_trichotomy : ∀ xs ys : List Char,
    charListLt xs ys = true ∨ xs = ys ∨ charListLt ys xs = true := by
  intro xs
  induction xs with
  | nil =>
    intro ys
    cases ys with
    | nil => exact Or.inr (Or.inl rfl)
    | cons b bs => exact Or.inl rfl
  | cons a as ih =>
    intro ys
    cases ys with
    | nil => exact Or.inr (Or.inr rfl)
    | cons b bs =>
      by_cases hab : a.toNat < b.toNat
      · left; unfold charListLt; rw [if_pos hab]
      · by_cases hba : b.toNat < a.toNat
        · right; right; unfold charListLt; rw [if_pos hba]
        · have heq : a = b := char_eq_of_toNat_eq (by omega)
          subst heq
          rcases ih bs with h | h | h
          · left; unfold charListLt; rw [if_neg hab, if_neg hba]; exact h
          · right; left; rw [h]
          · right; right; unfold charListLt; rw [if_neg hab, if_neg hba]; exact h

instance : IsTrans Answer cmpKeyRel := by
  constructor
  intro a b c h1 h2
  unfold cmpKeyRel pyLt at h1 h2 ⊢
  rcases h1 with h1 | ⟨h1e, h1r⟩
  · rcases h2 with h2 | ⟨h2e, h2r⟩
    · exact Or.inl (charListLt_trans _ _ _ h1 h2)
    · exact Or.inl (h2e ▸ h1)
  · rcases h2 with h2 | ⟨h2e, h2r⟩
    · exact Or.inl (h1e ▸ h2)
    · exact Or.inr ⟨h1e.trans h2e, le_trans h1r h2r⟩

instance : IsTotal Answer cmpKeyRel := by
  constructor
  intro a b
  unfold cmpKeyRel pyLt
  rcases charListLt_trichotomy a.answer.data b.answer.data with h | h | h
  · exact Or.inl (Or.inl h)
  · have he : a.answer = b.answer := String.ext h
    rcases le_total a.rank b.rank with hr | hr
    · exact Or.inl (Or.inr ⟨he, hr⟩)
    · exact Or.inr (Or.inr ⟨he.symm, hr⟩)
  · exact Or.inr (Or.inl h)

instance : IsAntisymm Answer cmpKeyStrict := by
  constructor
  intro a b h1 h2
  exfalso
  obtain ⟨h1le, h1ne⟩ := h1
  obtain ⟨h2le, h2ne⟩ := h2
  unfold cmpKeyRel pyLt at h1le h2le
  rcases h1le with h1l | ⟨h1e, h1r⟩
  · rcases h2le with h2l | ⟨h2e, h2r⟩
    · exact charListLt_asymm _ _ h1l h2l
    · rw [h2e] at h1l
      rw [charListLt_irrefl] at h1l
      simp at h1l
  · rcases h2le with h2l | ⟨h2e, h2r⟩
    · rw [h1e] at h2l
      rw [charListLt_irrefl] at h2l
      simp at h2l
    · exact h1ne (by simp [keyOf, h1e, le_antisymm h1r h2r])

theorem sorted_key_nodup_eq (l1 l2 : List Answer)
    (hperm : l1.Perm l2)
    (hs1 : l1.Pairwise cmpKeyRel) (hs2 : l2.Pairwise cmpKeyRel)
    (hn : (l1.map keyOf).Nodup) : l1 = l2 := by
  have hn2 : (l2.map keyOf).Nodup := ((hperm.map keyOf).nodup_iff).mp hn
  have hne1 : l1.Pairwise (fun a b => keyOf a ≠ keyOf b) := List.pairwise_map.mp hn
  have hne2 : l2.Pairwise (fun a b => keyOf a ≠ keyOf b) := List.pairwise_map.mp hn2
  have hst1 : l1.Pairwise cmpKeyStrict :=
    (hs1.and hne1).imp (fun h => h)
  have hst2 : l2.Pairwise cmpKeyStrict :=
    (hs2.and hne2).imp (fun h => h)
  exact List.eq_of_perm_of_sorted hperm hst1 hst2

/-- Counterexample to C6 as stated: two answer lists that differ only in the
ordering of answers (two answers share the same text and rank but carry
different scores) are reported as changed — the stable sort cannot separate
answers tied on the `(text, rank)` key, so reordering survives into the
element-wise comparison. -/
theorem C6_normalization_symmetry_counterexample :
    (([⟨"a", true, 5, 1, 100⟩, ⟨"a", true, 5, 1, 50⟩] : List Answer).map
        normalizeAnswerForComparison).Perm
      (([⟨"a", true, 5, 1, 50⟩, ⟨"a", true, 5, 1, 100⟩] : List Answer).map
        normalizeAnswerForComparison)
    ∧ answers_have_changed
        ⟨none, "t", "Input", "c", "l", 0, 0,
          [⟨"a", true, 5, 1, 100⟩, ⟨"a", true, 5, 1, 50⟩], none⟩
        ⟨none, "t", "Input", "c", "l", 0, 0,
          [⟨"a", true, 5, 1, 50⟩, ⟨"a", true, 5, 1, 100⟩], none⟩ = true := by
  constructor
  · exact List.Perm.swap _ _ _
  · decide

/-- C6 (amended): two answer lists that differ only in ordering or in
case/whitespace of answer text (equal flags, ranks, scores and response counts
— i.e. their normalized forms are permutations) compare as unchanged, provided
no two distinct answers share the same normalized `(text, rank)` sort key. -/
theorem C6_normalization_symmetry (q1 q2 : Question)
    (hperm : (q1.answers.map normalizeAnswerForComparison).Perm
        (q2.answers.map normalizeAnswerForComparison))
    (hnodup : ((q1.answers.map normalizeAnswerForComparison).map keyOf).Nodup) :
    answers_have_changed q1 q2 = false := by
  unfold answers_have_changed
  have hlen : q1.answers.length = q2.answers.length := by
    have := hperm.length_eq
    simpa using this
  rw [if_neg (show ¬(q1.answers.length ≠ q2.answers.length) from fun h => h hlen)]
  have heq : (q1.answers.map normalizeAnswerForComparison).insertionSort cmpKeyRel =
      (q2.answers.map normalizeAnswerForComparison).insertionSort cmpKeyRel := by
    apply sorted_key_nodup_eq
    · exact ((List.perm_insertionSort _ _).trans hperm).trans
        (List.perm_insertionSort _ _).symm
    · exact List.sorted_insertionSort _ _
    · exact List.sorted_insertionSort _ _
    · exact ((List.perm_insertionSort cmpKeyRel _).map keyOf).nodup_iff.mpr hnodup
  rw [heq]
  simp

/-- Witness for the amended C6: a reorder plus case and whitespace changes with
distinct `(text, rank)` keys is reported unchanged. -/
theorem C6_normalization_symmetry_witness :
    answers_have_changed
        ⟨none, "t", "Input", "c", "l", 0, 0,
          [⟨" A ", true, 3, 1, 100⟩, ⟨"b", false, 2, 0, 0⟩], none⟩
        ⟨none, "t", "Input", "c", "l", 0, 0,
          [⟨"b", false, 2, 0, 0⟩, ⟨"a", true, 3, 1, 100⟩], none⟩ = false :=
  C6_normalization_symmetry
    ⟨none, "t", "Input", "c", "l", 0, 0,
      [⟨" A ", true, 3, 1, 100⟩, ⟨"b", false, 2, 0, 0⟩], none⟩
    ⟨none, "t", "Input", "c", "l", 0, 0,
      [⟨"b", false, 2, 0, 0⟩, ⟨"a", true, 3, 1, 100⟩], none⟩
    (by decide) (by decide)
